import Mathlib

/-!
Verification of the PixelGuard PDF annotation/redaction editor.

The development shallowly embeds the geometry transforms, the annotation
store with its undo/redo history, the gesture handlers, the pixelation
effect, the AI-detector conversion, and the export/burn-in pipeline of the
repository, and proves or refutes the specified properties about them.

Conventions of the embedding:
- real-valued coordinates (document points, device pixels, scales) are ℚ;
- pixel buffers are functions ℕ × ℕ → ℕ (a colour code per pixel);
- page indices are ℤ (JavaScript numbers used as array indices);
- opaque string values of the source (random ids, hex colours, user text)
  are modelled by numeric codes, since no claim inspects their characters.
-/

namespace PixelGuard

/-- A device-space point, as produced by mouse events (`getPos` in App.tsx). -/
structure Point where
  x : ℚ
  y : ℚ
  deriving DecidableEq, Repr

/-- A device-space rectangle given by top-left corner and size. -/
structure DeviceRect where
  x : ℚ
  y : ℚ
  width : ℚ
  height : ℚ
  deriving DecidableEq, Repr

/-- `RedactionRect` from src/types.ts: a document-space rectangle with
bottom-left corner `(x, y)` in PDF points, owned by page `pageIndex`.
The random string id is modelled by a numeric code. -/
structure RedactionRect where
  id : ℕ
  pageIndex : ℤ
  x : ℚ
  y : ℚ
  width : ℚ
  height : ℚ
  deriving DecidableEq, Repr

/-- Modelled from the spec: the page viewport of the external page renderer
(pdf.js), declared in src/types.ts as `Viewport` but implemented outside the
repository.  Section 4.1 of the spec fixes its contract: page document-height
`H` and zoom scale `s` determine the two point transforms below. -/
structure PageViewport where
  height : ℚ
  scale : ℚ
  deriving DecidableEq, Repr

/-- Modelled from the spec: `toDevice(x,y) = (x*s, (H - y)*s)` — the
document-space → device-space point transform (`convertToViewportPoint`
of the viewport interface in src/types.ts). -/
def convertToViewportPoint (vp : PageViewport) (x y : ℚ) : ℚ × ℚ :=
  (x * vp.scale, (vp.height - y) * vp.scale)

/-- Modelled from the spec: `toDocument(px,py) = (px/s, H - py/s)` — the
device-space → document-space point transform (`convertToPdfPoint`
of the viewport interface in src/types.ts). -/
def convertToPdfPoint (vp : PageViewport) (px py : ℚ) : ℚ × ℚ :=
  (px / vp.scale, vp.height - py / vp.scale)

/-- Corner-based document→device rectangle conversion, as implemented at
src/unnamed/part_001 lines 105-117 (savePdfWithRedactions) and
src/App.tsx lines 479-484 (handleDoubleClick): convert the document
top-left `(x, y+height)` and bottom-right `(x+width, y)` corners and take
min/abs of the results. -/
def convertRectToDevice (vp : PageViewport) (x y width height : ℚ) : DeviceRect :=
  let p1 := convertToViewportPoint vp x (y + height)
  let p2 := convertToViewportPoint vp (x + width) y
  { x := min p1.1 p2.1
    y := min p1.2 p2.2
    width := |p2.1 - p1.1|
    height := |p2.2 - p1.2| }

/-- C1: rectangle conversion from document space to device space is
corner-based: converting the document top-left `(x, y+h)` and bottom-right
`(x+w, y)` through the point transform and taking min/max yields the device
rectangle with top-left `(x*s, (H-(y+h))*s)` and size `(w*s, h*s)`. -/
theorem rect_conversion_corner_based (vp : PageViewport) (x y w h : ℚ)
    (hs : 0 < vp.scale) (hw : 0 ≤ w) (hh : 0 ≤ h) :
    convertRectToDevice vp x y w h =
      { x := x * vp.scale
        y := (vp.height - (y + h)) * vp.scale
        width := w * vp.scale
        height := h * vp.scale } := by
  unfold convertRectToDevice convertToViewportPoint
  have h1 : x * vp.scale ≤ (x + w) * vp.scale := by nlinarith
  have h2 : (vp.height - (y + h)) * vp.scale ≤ (vp.height - y) * vp.scale := by nlinarith
  simp only [DeviceRect.mk.injEq]
  refine ⟨min_eq_left h1, min_eq_left h2, ?_, ?_⟩
  · have h3 : (x + w) * vp.scale - x * vp.scale = w * vp.scale := by ring
    rw [h3, abs_of_nonneg (by positivity)]
  · have h4 : (vp.height - y) * vp.scale - (vp.height - (y + h)) * vp.scale = h * vp.scale := by
      ring
    rw [h4, abs_of_nonneg (by positivity)]

/-- Witness for C1: the rectangle with document coords (x=10, y=20, w=30,
h=40) on a page of height 200 at scale 1.0 converts to the device rectangle
with top-left (10, 140) and size (30, 40). -/
theorem rect_conversion_corner_based_witness :
    convertRectToDevice ⟨200, 1⟩ 10 20 30 40 = ⟨10, 140, 30, 40⟩ := by
  have h := rect_conversion_corner_based ⟨200, 1⟩ 10 20 30 40
    (by norm_num) (by norm_num) (by norm_num)
  rw [h]
  norm_num

/-- C2: for every scale `s > 0` the point transforms are mutual inverses:
`toDocument (toDevice p) = p` and `toDevice (toDocument q) = q`.  The
equalities are exact over ℚ, hence hold within any tolerance, for all
points (in particular those within the page bounds). -/
theorem transform_round_trip (vp : PageViewport) (x y px py : ℚ)
    (hs : 0 < vp.scale) :
    convertToPdfPoint vp (convertToViewportPoint vp x y).1
        (convertToViewportPoint vp x y).2 = (x, y)
  ∧ convertToViewportPoint vp (convertToPdfPoint vp px py).1
        (convertToPdfPoint vp px py).2 = (px, py) := by
  have hs' : vp.scale ≠ 0 := ne_of_gt hs
  unfold convertToPdfPoint convertToViewportPoint
  constructor
  · simp only [Prod.mk.injEq]
    constructor
    · field_simp
    · field_simp
  · simp only [Prod.mk.injEq]
    constructor
    · field_simp
    · field_simp

/-- Witness for C2: round-trip at the concrete document point (3, 7) and
device point (5, 11) on a page of height 200 at scale 2. -/
theorem transform_round_trip_witness :
    convertToPdfPoint ⟨200, 2⟩ (convertToViewportPoint ⟨200, 2⟩ 3 7).1
        (convertToViewportPoint ⟨200, 2⟩ 3 7).2 = (3, 7)
  ∧ convertToViewportPoint ⟨200, 2⟩ (convertToPdfPoint ⟨200, 2⟩ 5 11).1
        (convertToPdfPoint ⟨200, 2⟩ 5 11).2 = (5, 11) :=
  transform_round_trip ⟨200, 2⟩ 3 7 5 11 (by norm_num)

/-- `RedactionType` from src/types.ts (second variant): the tool/effect tag
of an annotation. -/
inductive RedactionType where
  | mosaic
  | blur
  | blackout
  | whiteout
  | pen
  | rectangle
  | text
  deriving DecidableEq, Repr

/-- `AnnotationObject` from src/types.ts (second variant).  String-valued
fields (random id, hex colour, user text) are modelled by numeric codes. -/
structure AnnotationObject where
  id : ℕ
  pageIndex : ℤ
  x : ℚ
  y : ℚ
  width : ℚ
  height : ℚ
  type : RedactionType
  path : Option (List Point) := none
  text : Option ℕ := none
  color : Option ℕ := none
  fontSize : Option ℚ := none
  strokeWidth : Option ℚ := none
  deriving DecidableEq, Repr

/-- The annotation-store part of `DocumentSession` from src/types.ts: the
ordered annotation sequence, the redo stack, and the current page index.
Fields irrelevant to the store (name, file handle, pdf proxies, zoom) are
omitted. -/
structure DocSession where
  currIndex : ℤ
  annotations : List AnnotationObject
  redoStack : List AnnotationObject
  deriving DecidableEq, Repr

/-- A session with no annotations and an empty redo stack. -/
def emptySession : DocSession :=
  { currIndex := 0, annotations := [], redoStack := [] }

/-- `handleUndo` from src/App.tsx lines 176-187: pop the last annotation
(if any) and push it onto the end of the redo stack. -/
def handleUndo (d : DocSession) : DocSession :=
  match d.annotations.getLast? with
  | none => d
  | some popped =>
      { d with
        annotations := d.annotations.dropLast
        redoStack := d.redoStack ++ [popped] }

/-- `handleRedo` from src/App.tsx lines 189-201: pop the last element of
the redo stack (if any) and append it back onto the annotation sequence. -/
def handleRedo (d : DocSession) : DocSession :=
  match d.redoStack.getLast? with
  | none => d
  | some next =>
      { d with
        annotations := d.annotations ++ [next]
        redoStack := d.redoStack.dropLast }

/-- The append performed on gesture completion (src/App.tsx lines 401-404,
431-434, 460-463): push the new annotation and clear the redo stack. -/
def appendAnn (d : DocSession) (a : AnnotationObject) : DocSession :=
  { d with annotations := d.annotations ++ [a], redoStack := [] }

/-- Concrete annotation A for the undo/redo scenario. -/
def annA : AnnotationObject :=
  { id := 1, pageIndex := 0, x := 0, y := 0, width := 1, height := 1
    type := RedactionType.mosaic }

/-- Concrete annotation B for the undo/redo scenario. -/
def annB : AnnotationObject :=
  { id := 2, pageIndex := 0, x := 2, y := 2, width := 1, height := 1
    type := RedactionType.mosaic }

/-- Concrete annotation C for the undo/redo scenario. -/
def annC : AnnotationObject :=
  { id := 3, pageIndex := 0, x := 4, y := 4, width := 1, height := 1
    type := RedactionType.mosaic }

/-- The session obtained by appending A, B, C to an empty session. -/
def sessionABC : DocSession :=
  appendAnn (appendAnn (appendAnn emptySession annA) annB) annC

/-- Counterexample to C3: the claim says that after appending A, B, C and
undoing twice the redo stack yields C then B in pop order; but the stored
stack is `[C, B]` and `handleRedo` pops from the end, so the first redo
restores B (annotations become `[A, B]`), not C (which would give
`[A, C]`). -/
theorem undo_redo_pop_order_counterexample :
    (handleRedo (handleUndo (handleUndo sessionABC))).annotations = [annA, annB]
  ∧ (handleRedo (handleUndo (handleUndo sessionABC))).annotations ≠ [annA, annC] := by
  constructor
  · rfl
  · decide

/-- C3 (amended): starting from an empty session, after appending A, B, C
and undoing twice the annotation sequence is `[A]` and the redo stack is
stored as `[C, B]`, whose end-popping redo restores B first and then C;
appending a new annotation D empties the redo stack, so a subsequent redo
is a no-op. -/
theorem undo_redo_linearity_amended (A B C D : AnnotationObject) :
    (handleUndo (handleUndo (appendAnn (appendAnn (appendAnn emptySession A) B) C))).annotations
        = [A]
  ∧ (handleUndo (handleUndo (appendAnn (appendAnn (appendAnn emptySession A) B) C))).redoStack
        = [C, B]
  ∧ (handleRedo (handleUndo (handleUndo
        (appendAnn (appendAnn (appendAnn emptySession A) B) C)))).annotations = [A, B]
  ∧ (handleRedo (handleRedo (handleUndo (handleUndo
        (appendAnn (appendAnn (appendAnn emptySession A) B) C))))).annotations = [A, B, C]
  ∧ handleRedo (appendAnn (handleUndo (handleUndo
        (appendAnn (appendAnn (appendAnn emptySession A) B) C))) D)
      = appendAnn (handleUndo (handleUndo
        (appendAnn (appendAnn (appendAnn emptySession A) B) C))) D :=
  ⟨rfl, rfl, rfl, rfl, rfl⟩

/-- The box-tool branch of `onMouseUp` from src/App.tsx lines 407-435:
normalise the drag rectangle, reject it unless both device-pixel sides
exceed 5, otherwise convert the two device corners to PDF points, build the
document rectangle by min/abs, and append the new annotation (clearing the
redo stack).  The random id is passed in as a parameter. -/
def onMouseUpBox (vp : PageViewport) (d : DocSession) (tool : RedactionType)
    (newId : ℕ) (start endPos : Point) : DocSession :=
  let x := min start.x endPos.x
  let y := min start.y endPos.y
  let w := |endPos.x - start.x|
  let h := |endPos.y - start.y|
  if 5 < w ∧ 5 < h then
    let p1 := convertToPdfPoint vp x y
    let p2 := convertToPdfPoint vp (x + w) (y + h)
    appendAnn d
      { id := newId
        pageIndex := d.currIndex
        x := min p1.1 p2.1
        y := min p1.2 p2.2
        width := |p2.1 - p1.1|
        height := |p2.2 - p1.2|
        type := tool
        color := if tool = RedactionType.rectangle then some 0xef4444 else none
        strokeWidth := some 2 }
  else d

/-- `handleMouseUp` from src/unnamed/part_000 lines 127-180: the mosaic
drag handler of the single-document variant.  Drags whose device width or
height is below 5 pixels are ignored; otherwise the normalised corners are
converted to PDF points and a new `RedactionRect` is appended. -/
def handleMouseUp (vp : PageViewport) (currentPage : ℤ) (newId : ℕ)
    (start endPos : Point) (redactions : List RedactionRect) : List RedactionRect :=
  let width := |endPos.x - start.x|
  let height := |endPos.y - start.y|
  if width < 5 ∨ height < 5 then redactions
  else
    let finalX := min start.x endPos.x
    let finalY := min start.y endPos.y
    let p1 := convertToPdfPoint vp finalX finalY
    let p2 := convertToPdfPoint vp (finalX + width) (finalY + height)
    redactions ++
      [{ id := newId
         pageIndex := currentPage
         x := min p1.1 p2.1
         y := min p1.2 p2.2
         width := |p2.1 - p1.1|
         height := |p2.2 - p1.2| }]

/-- C4: degenerate drags are rejected before annotation creation.  In both
gesture handlers a completed box drag whose device-pixel width or height is
below 5 leaves the store unchanged, while a 10×10 device-pixel drag appends
exactly one new annotation. -/
theorem degenerate_drag_rejection :
    (∀ (vp : PageViewport) (d : DocSession) (tool : RedactionType) (newId : ℕ)
        (start endPos : Point),
      |endPos.x - start.x| < 5 ∨ |endPos.y - start.y| < 5 →
        onMouseUpBox vp d tool newId start endPos = d)
  ∧ (∀ (vp : PageViewport) (pg : ℤ) (newId : ℕ) (start endPos : Point)
        (rs : List RedactionRect),
      |endPos.x - start.x| < 5 ∨ |endPos.y - start.y| < 5 →
        handleMouseUp vp pg newId start endPos rs = rs)
  ∧ (∀ (vp : PageViewport) (d : DocSession) (tool : RedactionType) (newId : ℕ)
        (start endPos : Point),
      |endPos.x - start.x| = 10 → |endPos.y - start.y| = 10 →
        (onMouseUpBox vp d tool newId start endPos).annotations.length
          = d.annotations.length + 1)
  ∧ (∀ (vp : PageViewport) (pg : ℤ) (newId : ℕ) (start endPos : Point)
        (rs : List RedactionRect),
      |endPos.x - start.x| = 10 → |endPos.y - start.y| = 10 →
        (handleMouseUp vp pg newId start endPos rs).length = rs.length + 1) := by
  refine ⟨?_, ?_, ?_, ?_⟩
  · intro vp d tool newId start endPos hsmall
    unfold onMouseUpBox
    rw [if_neg]
    rcases hsmall with hw | hh
    · exact fun hc => absurd hc.1 (by simp only [not_lt]; linarith)
    · exact fun hc => absurd hc.2 (by simp only [not_lt]; linarith)
  · intro vp pg newId start endPos rs hsmall
    unfold handleMouseUp
    rw [if_pos hsmall]
  · intro vp d tool newId start endPos hw hh
    unfold onMouseUpBox
    rw [if_pos (by rw [hw, hh]; norm_num)]
    simp [appendAnn]
  · intro vp pg newId start endPos rs hw hh
    unfold handleMouseUp
    rw [if_neg (by rw [hw, hh]; norm_num)]
    simp

/-- Witness for C4: in the multi-document session handler a 3×3 device-pixel
drag from (0,0) to (3,3) leaves the session unchanged, while a 10×10 drag
from (0,0) to (10,10) appends exactly one annotation; likewise for the
single-document redaction-list handler. -/
theorem degenerate_drag_rejection_witness :
    onMouseUpBox ⟨200, 1⟩ emptySession RedactionType.mosaic 7 ⟨0, 0⟩ ⟨3, 3⟩ = emptySession
  ∧ (onMouseUpBox ⟨200, 1⟩ emptySession RedactionType.mosaic 7 ⟨0, 0⟩
        ⟨10, 10⟩).annotations.length = emptySession.annotations.length + 1
  ∧ handleMouseUp ⟨200, 1⟩ 0 7 ⟨0, 0⟩ ⟨3, 3⟩ [] = []
  ∧ (handleMouseUp ⟨200, 1⟩ 0 7 ⟨0, 0⟩ ⟨10, 10⟩ []).length
      = ([] : List RedactionRect).length + 1 :=
  ⟨degenerate_drag_rejection.1 ⟨200, 1⟩ emptySession RedactionType.mosaic 7 ⟨0, 0⟩ ⟨3, 3⟩
      (by norm_num),
   degenerate_drag_rejection.2.2.1 ⟨200, 1⟩ emptySession RedactionType.mosaic 7 ⟨0, 0⟩ ⟨10, 10⟩
      (by norm_num) (by norm_num),
   degenerate_drag_rejection.2.1 ⟨200, 1⟩ 0 7 ⟨0, 0⟩ ⟨3, 3⟩ [] (by norm_num),
   degenerate_drag_rejection.2.2.2 ⟨200, 1⟩ 0 7 ⟨0, 0⟩ ⟨10, 10⟩ [] (by norm_num) (by norm_num)⟩

/-- The pen-tool branch of `onMouseUp` from src/App.tsx lines 384-406:
convert the captured device path to PDF coordinates and append a pen
annotation only when the converted path has more than 2 points. -/
def onMouseUpPen (vp : PageViewport) (d : DocSession) (newId : ℕ)
    (devicePath : List Point) : DocSession :=
  let pdfPath := devicePath.map fun p =>
    let q := convertToPdfPoint vp p.x p.y
    Point.mk q.1 q.2
  if 2 < pdfPath.length then
    appendAnn d
      { id := newId
        pageIndex := d.currIndex
        x := 0, y := 0, width := 0, height := 0
        type := RedactionType.pen
        path := some pdfPath
        color := some 0xef4444
        strokeWidth := some 2 }
  else d

/-- Counterexample to C9: the claim says a completed pen gesture whose
converted path has 2 or more points appends one pen annotation, but the
code requires strictly more than 2 points, so a 2-point path creates no
annotation at all. -/
theorem pen_min_points_counterexample :
    (([⟨0, 0⟩, ⟨10, 10⟩] : List Point).length = 2)
  ∧ onMouseUpPen ⟨200, 1⟩ emptySession 9 [⟨0, 0⟩, ⟨10, 10⟩] = emptySession
  ∧ (onMouseUpPen ⟨200, 1⟩ emptySession 9 [⟨0, 0⟩, ⟨10, 10⟩]).annotations.length
      ≠ emptySession.annotations.length + 1 := by
  refine ⟨rfl, rfl, ?_⟩
  decide

/-- C9 (amended): a pen annotation is created on gesture completion exactly
when the converted document-space path has more than 2 points (at least 3):
such gestures append one pen annotation carrying the converted path, and
paths of 2 or fewer points leave the session unchanged. -/
theorem pen_min_points_amended (vp : PageViewport) (d : DocSession) (newId : ℕ)
    (devicePath : List Point) :
    (2 < devicePath.length →
      (onMouseUpPen vp d newId devicePath).annotations.length
        = d.annotations.length + 1)
  ∧ (devicePath.length ≤ 2 → onMouseUpPen vp d newId devicePath = d) := by
  constructor
  · intro hlen
    unfold onMouseUpPen
    rw [if_pos (by simpa using hlen)]
    simp [appendAnn]
  · intro hlen
    unfold onMouseUpPen
    rw [if_neg (by simpa using not_lt.mpr hlen)]

/-- Witness for C9 (amended): a 3-point pen path appends one annotation and
a 2-point pen path is a no-op. -/
theorem pen_min_points_amended_witness :
    (onMouseUpPen ⟨200, 1⟩ emptySession 9 [⟨0, 0⟩, ⟨10, 10⟩, ⟨20, 20⟩]).annotations.length
        = emptySession.annotations.length + 1
  ∧ onMouseUpPen ⟨200, 1⟩ emptySession 9 [⟨0, 0⟩, ⟨10, 10⟩] = emptySession :=
  ⟨(pen_min_points_amended ⟨200, 1⟩ emptySession 9 [⟨0, 0⟩, ⟨10, 10⟩, ⟨20, 20⟩]).1
      (by norm_num),
   (pen_min_points_amended ⟨200, 1⟩ emptySession 9 [⟨0, 0⟩, ⟨10, 10⟩]).2 (by norm_num)⟩

/-- The downsampled grid width of the pixelation effect:
`Math.max(1, Math.floor(w / blockSize))` — src/utils/pdfUtils.ts line 64
(`applyMosaicEffect`), line 151 (`saveRedactedPdf` burn-in), and
src/unnamed/part_001 line 59 (`pixelateCanvasRect`). -/
def scaledW (w : ℕ) (blockSize : ℚ) : ℕ :=
  max 1 (⌊(w : ℚ) / blockSize⌋.toNat)

/-- The downsampled grid height of the pixelation effect:
`Math.max(1, Math.floor(h / blockSize))` (same sources as `scaledW`). -/
def scaledH (h : ℕ) (blockSize : ℚ) : ℕ :=
  max 1 (⌊(h : ℚ) / blockSize⌋.toNat)

/-- One cell of the tiny offscreen canvas produced by the downsampling
`drawImage` with smoothing disabled: cell `(cx, cy)` samples the source
region nearest-neighbour style at `(x + cx*w/scaledW, y + cy*h/scaledH)`. -/
def smallPixel (src : ℕ × ℕ → ℕ) (x y w h : ℕ) (blockSize : ℚ)
    (c : ℕ × ℕ) : ℕ :=
  src (x + c.1 * w / scaledW w blockSize, y + c.2 * h / scaledH h blockSize)

/-- `pixelateCanvasRect` from src/unnamed/part_001 lines 43-74, which is
also the downsample/upsample core of `applyMosaicEffect`
(src/utils/pdfUtils.ts lines 57-77; that variant additionally strokes a
decorative translucent 1-pixel border on top) and of the `saveRedactedPdf`
burn-in patch (lines 149-167): downsample the `w×h` region at `(x, y)` to a
`scaledW × scaledH` offscreen canvas, then upsample it back over the region
with smoothing disabled, so every region pixel takes the colour of the grid
cell it falls in; pixels outside the region are untouched. -/
def pixelateCanvasRect (src : ℕ × ℕ → ℕ) (x y w h : ℕ) (blockSize : ℚ) :
    ℕ × ℕ → ℕ :=
  fun p =>
    if x ≤ p.1 ∧ p.1 < x + w ∧ y ≤ p.2 ∧ p.2 < y + h then
      smallPixel src x y w h blockSize
        ((p.1 - x) * scaledW w blockSize / w, (p.2 - y) * scaledH h blockSize / h)
    else src p

/-- Counterexample to C6: the claim says the pixelate effect downsamples a
`w×h` region to exactly `ceil(w/blockSize) × ceil(h/blockSize)` cells, but
for a 20×20 region with the default block size 8 the code produces a
`max(1, floor(20/8)) = 2` by `2` grid, not the `3 × 3` grid that `ceil`
would give. -/
theorem pixelate_grid_ceil_counterexample :
    scaledW 20 8 = 2 ∧ scaledH 20 8 = 2
  ∧ ⌈(20 : ℚ) / 8⌉ = 3 ∧ (2 : ℤ) ≠ 3 := by
  have hfloor : ⌊((20 : ℕ) : ℚ) / 8⌋ = 2 := by
    rw [Int.floor_eq_iff]
    push_cast
    norm_num
  have hceil : ⌈(20 : ℚ) / 8⌉ = 3 := by
    rw [Int.ceil_eq_iff]
    norm_num
  refine ⟨?_, ?_, hceil, by norm_num⟩
  · rw [scaledW, hfloor]
    rfl
  · rw [scaledH, hfloor]
    rfl

/-- C6 (amended): for every region with `w > 0` and `h > 0` the pixelation
effect downsamples to a grid of exactly `max(1, floor(w/blockSize))` by
`max(1, floor(h/blockSize))` cells — `ceil` only in the part_001 export
variant — before upsampling back to full resolution with smoothing
disabled: every pixel of the region is drawn from one cell of that grid. -/
theorem pixelate_grid_dims_amended (src : ℕ × ℕ → ℕ) (x y w h : ℕ)
    (blockSize : ℚ) (px py : ℕ)
    (hx : x ≤ px ∧ px < x + w) (hy : y ≤ py ∧ py < y + h) :
    scaledW w blockSize = max 1 (⌊(w : ℚ) / blockSize⌋.toNat)
  ∧ ∃ c : ℕ × ℕ, c.1 < scaledW w blockSize ∧ c.2 < scaledH h blockSize ∧
      pixelateCanvasRect src x y w h blockSize (px, py)
        = smallPixel src x y w h blockSize c := by
  have hw : 0 < w := by omega
  have hh : 0 < h := by omega
  have hsw : 0 < scaledW w blockSize := le_max_left 1 _
  have hsh : 0 < scaledH h blockSize := le_max_left 1 _
  refine ⟨rfl, ⟨(px - x) * scaledW w blockSize / w,
      (py - y) * scaledH h blockSize / h⟩, ?_, ?_, ?_⟩
  · rw [Nat.div_lt_iff_lt_mul hw]
    calc (px - x) * scaledW w blockSize
        < w * scaledW w blockSize := (Nat.mul_lt_mul_right hsw).mpr (by omega)
      _ = scaledW w blockSize * w := Nat.mul_comm _ _
  · rw [Nat.div_lt_iff_lt_mul hh]
    calc (py - y) * scaledH h blockSize
        < h * scaledH h blockSize := (Nat.mul_lt_mul_right hsh).mpr (by omega)
      _ = scaledH h blockSize * h := Nat.mul_comm _ _
  · unfold pixelateCanvasRect
    rw [if_pos ⟨hx.1, hx.2, hy.1, hy.2⟩]

/-- Witness for C6 (amended): in a 20×20 region at the origin with block
size 8, the pixel (0, 0) is drawn from a cell of the 2×2 grid. -/
theorem pixelate_grid_dims_amended_witness :
    scaledW 20 8 = max 1 (⌊(20 : ℚ) / 8⌋.toNat)
  ∧ ∃ c : ℕ × ℕ, c.1 < scaledW 20 8 ∧ c.2 < scaledH 20 8 ∧
      pixelateCanvasRect (fun p => p.1 + 100 * p.2) 0 0 20 20 8 (0, 0)
        = smallPixel (fun p => p.1 + 100 * p.2) 0 0 20 20 8 c :=
  pixelate_grid_dims_amended (fun p => p.1 + 100 * p.2) 0 0 20 20 8 0 0
    (by norm_num) (by norm_num)

/-- The cast of the grid side length is bounded by the ceiling the spec
names, for a positive region side. -/
theorem grid_side_le_ceil (n : ℕ) (blockSize : ℚ) (hn : 0 < n)
    (hb : 0 < blockSize) :
    ((max 1 (⌊(n : ℚ) / blockSize⌋.toNat) : ℕ) : ℤ) ≤ ⌈(n : ℚ) / blockSize⌉ := by
  have hq : 0 < (n : ℚ) / blockSize := by positivity
  have hceil : 1 ≤ ⌈(n : ℚ) / blockSize⌉ := Int.ceil_pos.mpr hq
  have hfl : (0 : ℤ) ≤ ⌊(n : ℚ) / blockSize⌋ := Int.floor_nonneg.mpr hq.le
  have hcast : ((⌊(n : ℚ) / blockSize⌋.toNat : ℕ) : ℤ) = ⌊(n : ℚ) / blockSize⌋ :=
    Int.toNat_of_nonneg hfl
  push_cast
  rw [hcast]
  exact max_le hceil (le_trans (Int.floor_le_ceil _) (le_refl _))

/-- C7: the pixel buffer produced by the pixelation effect on a `W×H`
region with block size `b > 0` contains at most
`ceil(W/b) * ceil(H/b)` distinct colours over the region — each region
pixel is drawn from a grid of no more than that many cells. -/
theorem pixelate_block_bound (src : ℕ × ℕ → ℕ) (x y W H : ℕ) (b : ℚ)
    (hb : 0 < b) :
    (((Finset.range W ×ˢ Finset.range H).image
        (fun p => pixelateCanvasRect src x y W H b (x + p.1, y + p.2))).card : ℤ)
      ≤ ⌈(W : ℚ) / b⌉ * ⌈(H : ℚ) / b⌉ := by
  have hceilW : (0 : ℤ) ≤ ⌈(W : ℚ) / b⌉ := Int.ceil_nonneg (by positivity)
  have hceilH : (0 : ℤ) ≤ ⌈(H : ℚ) / b⌉ := Int.ceil_nonneg (by positivity)
  rcases Nat.eq_zero_or_pos W with hW | hW
  · subst hW
    simp [Finset.range_zero]
  rcases Nat.eq_zero_or_pos H with hH | hH
  · subst hH
    simp [Finset.range_zero]
  have hsub : (Finset.range W ×ˢ Finset.range H).image
        (fun p => pixelateCanvasRect src x y W H b (x + p.1, y + p.2))
      ⊆ (Finset.range (scaledW W b) ×ˢ Finset.range (scaledH H b)).image
        (smallPixel src x y W H b) := by
    rw [Finset.image_subset_iff]
    intro p hp
    rw [Finset.mem_product, Finset.mem_range, Finset.mem_range] at hp
    have hcell := pixelate_grid_dims_amended src x y W H b (x + p.1) (y + p.2)
      (by omega) (by omega)
    obtain ⟨-, c, hc1, hc2, hval⟩ := hcell
    rw [hval]
    exact Finset.mem_image.mpr
      ⟨c, Finset.mem_product.mpr ⟨Finset.mem_range.mpr hc1, Finset.mem_range.mpr hc2⟩, rfl⟩
  have hcard : ((Finset.range W ×ˢ Finset.range H).image
        (fun p => pixelateCanvasRect src x y W H b (x + p.1, y + p.2))).card
      ≤ scaledW W b * scaledH H b := by
    calc _ ≤ ((Finset.range (scaledW W b) ×ˢ Finset.range (scaledH H b)).image
          (smallPixel src x y W H b)).card := Finset.card_le_card hsub
      _ ≤ (Finset.range (scaledW W b) ×ˢ Finset.range (scaledH H b)).card :=
          Finset.card_image_le
      _ = scaledW W b * scaledH H b := by
          rw [Finset.card_product, Finset.card_range, Finset.card_range]
  have hWle : ((scaledW W b : ℕ) : ℤ) ≤ ⌈(W : ℚ) / b⌉ := grid_side_le_ceil W b hW hb
  have hHle : ((scaledH H b : ℕ) : ℤ) ≤ ⌈(H : ℚ) / b⌉ := grid_side_le_ceil H b hH hb
  calc (((Finset.range W ×ˢ Finset.range H).image
        (fun p => pixelateCanvasRect src x y W H b (x + p.1, y + p.2))).card : ℤ)
      ≤ ((scaledW W b * scaledH H b : ℕ) : ℤ) := by exact_mod_cast hcard
    _ = ((scaledW W b : ℕ) : ℤ) * ((scaledH H b : ℕ) : ℤ) := by push_cast; ring
    _ ≤ ⌈(W : ℚ) / b⌉ * ⌈(H : ℚ) / b⌉ := by
        exact mul_le_mul hWle hHle (by positivity) hceilW

/-- Witness for C7: pixelating a 20×20 region with block size 8 yields at
most `⌈20/8⌉ * ⌈20/8⌉` distinct colours over the region. -/
theorem pixelate_block_bound_witness :
    (((Finset.range 20 ×ˢ Finset.range 20).image
        (fun p => pixelateCanvasRect (fun q => q.1 + 100 * q.2) 0 0 20 20 8
          (0 + p.1, 0 + p.2))).card : ℤ)
      ≤ ⌈(20 : ℚ) / 8⌉ * ⌈(20 : ℚ) / 8⌉ :=
  pixelate_block_bound (fun q => q.1 + 100 * q.2) 0 0 20 20 8 (by norm_num)

/-- A bounding box returned by the sensitive-region detector
(src/unnamed/part_002): coordinates normalised to a 0-1000 scale, top-left
origin, `ymin` the top edge and `ymax` the bottom edge. -/
structure DetectedBox where
  ymin : ℚ
  xmin : ℚ
  ymax : ℚ
  xmax : ℚ
  deriving DecidableEq, Repr

/-- The box-to-rectangle conversion inside `detectSensitiveData`
(src/unnamed/part_002 lines 69-92): scale the normalised coordinates to PDF
points and flip the vertical axis (`y = pageHeight - ymax/1000*pageHeight`).
No size filtering of any kind is applied. -/
def boxToRedactionRect (newId : ℕ) (pageIndex : ℤ) (pageWidth pageHeight : ℚ)
    (box : DetectedBox) : RedactionRect :=
  { id := newId
    pageIndex := pageIndex
    x := box.xmin / 1000 * pageWidth
    y := pageHeight - box.ymax / 1000 * pageHeight
    width := (box.xmax - box.xmin) / 1000 * pageWidth
    height := (box.ymax - box.ymin) / 1000 * pageHeight }

/-- The store update of `handleMagicRedact` (src/unnamed/part_000 lines
242-246): if the detector returned no rectangles an alert is shown and the
store is untouched, otherwise every detected rectangle is appended as-is. -/
def handleMagicRedactAppend (prev detected : List RedactionRect) :
    List RedactionRect :=
  if detected.length = 0 then prev else prev ++ detected

/-- A degenerate detector box whose left and right edges coincide. -/
def boxDegenerate : DetectedBox :=
  { ymin := 400, xmin := 500, ymax := 450, xmax := 500 }

/-- The zero-width rectangle the detector conversion produces from
`boxDegenerate` on a 612×792-point page. -/
def rectDegenerate : RedactionRect :=
  boxToRedactionRect 11 0 612 792 boxDegenerate

/-- Counterexample to C8: the claim says detector rectangles below the
minimum interaction threshold produce no annotation, but `handleMagicRedact`
appends detector output without any degenerate-rectangle rejection: a
zero-width detected rectangle is appended to the store. -/
theorem detector_validation_counterexample :
    rectDegenerate.width = 0 ∧ rectDegenerate.width < 5
  ∧ handleMagicRedactAppend [] [rectDegenerate] = [rectDegenerate]
  ∧ handleMagicRedactAppend [] [rectDegenerate] ≠ [] := by
  refine ⟨?_, ?_, rfl, by decide⟩
  · show (boxDegenerate.xmax - boxDegenerate.xmin) / 1000 * 612 = 0
    norm_num [boxDegenerate]
  · show (boxDegenerate.xmax - boxDegenerate.xmin) / 1000 * 612 < 5
    norm_num [boxDegenerate]

/-- C8 (amended): candidate rectangles returned by the sensitive-region
detector are appended to the annotation store as-is, with no
degenerate-rectangle rejection at all (unlike manual gestures), using the
same plain list append as that variant's manual handler — which maintains
no redo stack: every nonempty detector result grows the store by exactly
its rectangles, whatever their sizes. -/
theorem detector_append_amended (prev detected : List RedactionRect)
    (hd : detected ≠ []) :
    handleMagicRedactAppend prev detected = prev ++ detected
  ∧ (handleMagicRedactAppend prev detected).length
      = prev.length + detected.length
  ∧ ∀ r ∈ detected, r ∈ handleMagicRedactAppend prev detected := by
  have hlen : ¬detected.length = 0 := by
    simpa [List.length_eq_zero] using hd
  unfold handleMagicRedactAppend
  rw [if_neg hlen]
  refine ⟨rfl, by simp, ?_⟩
  intro r hr
  exact List.mem_append_right _ hr

/-- Witness for C8 (amended): the degenerate detector rectangle is itself
appended to an empty store. -/
theorem detector_append_amended_witness :
    handleMagicRedactAppend [] [rectDegenerate] = [] ++ [rectDegenerate]
  ∧ (handleMagicRedactAppend [] [rectDegenerate]).length
      = ([] : List RedactionRect).length + [rectDegenerate].length
  ∧ ∀ r ∈ [rectDegenerate], r ∈ handleMagicRedactAppend [] [rectDegenerate] :=
  detector_append_amended [] [rectDegenerate] (by simp)

/-- An image placed onto an output page by `pdfPage.drawImage` during
export (src/utils/pdfUtils.ts lines 173-178, src/unnamed/part_001 lines
151-156): the pixelated patch is drawn at the annotation's original
document-space rectangle. -/
structure PlacedImage where
  x : ℚ
  y : ℚ
  width : ℚ
  height : ℚ
  deriving DecidableEq, Repr

/-- A page of the output document: its original content (abstract, since
`pdf-lib` copies it through untouched) plus the images drawn onto it. -/
structure PdfPage where
  content : ℕ
  images : List PlacedImage
  deriving DecidableEq, Repr

/-- The `drawImage` placement for one redaction: at `(rect.x, rect.y)` with
the rectangle's own document-space size. -/
def drawRect (r : RedactionRect) : PlacedImage :=
  { x := r.x, y := r.y, width := r.width, height := r.height }

/-- The inner per-page export loop: draw the patch of each redaction of the
page, in list order, onto the page. -/
def drawRedactions (p : PdfPage) (rects : List RedactionRect) : PdfPage :=
  { p with images := p.images ++ rects.map drawRect }

/-- One step of the grouping loop of `saveRedactedPdf`
(src/utils/pdfUtils.ts lines 100-105): a JS `Map` keyed by page index —
an existing key has the rectangle pushed onto its list in place, a new key
is appended at the end (insertion order). -/
def upsertRedaction (g : List (ℤ × List RedactionRect)) (r : RedactionRect) :
    List (ℤ × List RedactionRect) :=
  if g.any (fun kv => kv.1 == r.pageIndex) then
    g.map (fun kv => if kv.1 = r.pageIndex then (kv.1, kv.2 ++ [r]) else kv)
  else g ++ [(r.pageIndex, [r])]

/-- The per-page grouping of the redaction list (`redMap` in
src/utils/pdfUtils.ts, `redactionsByPage` in src/unnamed/part_001). -/
def groupByPage (rs : List RedactionRect) : List (ℤ × List RedactionRect) :=
  rs.foldl upsertRedaction []

/-- Processing of one `redMap` entry by the export loop
(src/utils/pdfUtils.ts lines 114-116): look up `pages[pageIndex]`; if the
index names no page of the document (`if (!pdfPage) continue`) the entry is
skipped, otherwise the entry's redactions are burnt into that page. -/
def applyPageRedactions (pages : List PdfPage) (kv : ℤ × List RedactionRect) :
    List PdfPage :=
  if 0 ≤ kv.1 then
    match pages.get? kv.1.toNat with
    | some p => pages.set kv.1.toNat (drawRedactions p kv.2)
    | none => pages
  else pages

/-- `saveRedactedPdf` from src/utils/pdfUtils.ts lines 87-184: group the
redactions by page index and process each group's page, leaving every other
page of the loaded document untouched.  Its `if (!pdfPage) continue` guard
(line 116) silently skips groups whose page index names no page.  The
part_001 variant `savePdfWithRedactions` lacks that guard and fails on such
a group; it is embedded separately below. -/
def saveRedactedPdf (pages : List PdfPage) (rs : List RedactionRect) :
    List PdfPage :=
  (groupByPage rs).foldl applyPageRedactions pages

/-- The page loop of `savePdfWithRedactions` (src/unnamed/part_001 lines
90-160), which has no guard on `pages[pageIndex]`: for an entry whose page
index names no page of the document, `await getPdfPage(originalPdfBytes,
pageIndex)` (line 98) rejects — pdf.js pages are 1-based and out-of-range
requests fail — and `pdfPage.drawImage` on `undefined` (line 151) would
throw; either way the promise rejects and the caller gets an error instead
of a document, modelled as `none`.  Valid entries burn their redactions
into their page as in `applyPageRedactions`.  Entry order (ascending
integer keys of a JS `Record`) is immaterial: distinct entries touch
distinct pages and any invalid entry fails the whole export. -/
def runGroupsE : List PdfPage → List (ℤ × List RedactionRect) →
    Option (List PdfPage)
  | pages, [] => some pages
  | pages, kv :: rest =>
      if 0 ≤ kv.1 then
        match pages.get? kv.1.toNat with
        | some p => runGroupsE (pages.set kv.1.toNat (drawRedactions p kv.2)) rest
        | none => none
      else none

/-- `savePdfWithRedactions` from src/unnamed/part_001 lines 76-163: group
the redactions by page index and process each group's page; unlike
`saveRedactedPdf` there is no `if (!pdfPage) continue` guard, so a group
with an invalid page index makes the export fail with no output. -/
def savePdfWithRedactions (pages : List PdfPage) (rs : List RedactionRect) :
    Option (List PdfPage) :=
  runGroupsE pages (groupByPage rs)

/-- The redactions a grouping list holds for page `k`, in order. -/
def keyRects (gs : List (ℤ × List RedactionRect)) (k : ℤ) :
    List RedactionRect :=
  gs.foldr (fun kv acc => if kv.1 = k then kv.2 ++ acc else acc) []

/-- A grouping list is well-formed when its keys are pairwise distinct. -/
def KeysNodup (gs : List (ℤ × List RedactionRect)) : Prop :=
  (gs.map Prod.fst).Nodup

theorem keyRects_cons (kv : ℤ × List RedactionRect)
    (gs : List (ℤ × List RedactionRect)) (k : ℤ) :
    keyRects (kv :: gs) k
      = if kv.1 = k then kv.2 ++ keyRects gs k else keyRects gs k := rfl

theorem keyRects_append (g1 g2 : List (ℤ × List RedactionRect)) (k : ℤ) :
    keyRects (g1 ++ g2) k = keyRects g1 k ++ keyRects g2 k := by
  induction g1 with
  | nil => rfl
  | cons kv g ih =>
    rw [List.cons_append, keyRects_cons, keyRects_cons, ih]
    by_cases h : kv.1 = k
    · rw [if_pos h, if_pos h, List.append_assoc]
    · rw [if_neg h, if_neg h]

theorem keyRects_eq_nil (gs : List (ℤ × List RedactionRect)) (k : ℤ)
    (h : ∀ kv ∈ gs, kv.1 ≠ k) : keyRects gs k = [] := by
  induction gs with
  | nil => rfl
  | cons kv gs ih =>
    rw [keyRects_cons, if_neg (h kv (List.mem_cons_self _ _))]
    exact ih fun e he => h e (List.mem_cons_of_mem _ he)

theorem drawRedactions_nil (p : PdfPage) : drawRedactions p [] = p := by
  simp [drawRedactions]

theorem drawRedactions_append (p : PdfPage) (l1 l2 : List RedactionRect) :
    drawRedactions (drawRedactions p l1) l2 = drawRedactions p (l1 ++ l2) := by
  simp [drawRedactions]

theorem keysNodup_upsert (g : List (ℤ × List RedactionRect))
    (r : RedactionRect) (hg : KeysNodup g) :
    KeysNodup (upsertRedaction g r) := by
  unfold upsertRedaction
  by_cases hany : g.any (fun kv => kv.1 == r.pageIndex) = true
  · rw [if_pos hany]
    unfold KeysNodup at hg ⊢
    have hkeys :
        (g.map (fun kv => if kv.1 = r.pageIndex then (kv.1, kv.2 ++ [r]) else kv)).map
            Prod.fst = g.map Prod.fst := by
      rw [List.map_map]
      apply List.map_congr_left
      intro kv _
      by_cases h : kv.1 = r.pageIndex
      · simp [h]
      · simp [h]
    rw [hkeys]
    exact hg
  · rw [if_neg hany]
    unfold KeysNodup at hg ⊢
    rw [List.map_append]
    simp only [List.map_cons, List.map_nil]
    rw [List.nodup_append]
    refine ⟨hg, List.nodup_singleton _, ?_⟩
    intro a ha hb
    simp only [List.mem_singleton] at hb
    subst hb
    obtain ⟨kv, hkv, hfst⟩ := List.mem_map.mp ha
    exact hany (List.any_eq_true.mpr ⟨kv, hkv, by simp [hfst]⟩)

theorem keyRects_map_extend (g : List (ℤ × List RedactionRect))
    (r : RedactionRect) (k : ℤ) (hg : KeysNodup g)
    (hany : ∃ kv ∈ g, kv.1 = r.pageIndex) :
    keyRects (g.map (fun kv =>
        if kv.1 = r.pageIndex then (kv.1, kv.2 ++ [r]) else kv)) k
      = if r.pageIndex = k then keyRects g k ++ [r] else keyRects g k := by
  induction g with
  | nil => simp at hany
  | cons kv0 rest ih =>
    have hg' : KeysNodup rest := by
      unfold KeysNodup at hg ⊢
      rw [List.map_cons, List.nodup_cons] at hg
      exact hg.2
    have hg0 : kv0.1 ∉ rest.map Prod.fst := by
      unfold KeysNodup at hg
      rw [List.map_cons, List.nodup_cons] at hg
      exact hg.1
    rw [List.map_cons]
    by_cases h0 : kv0.1 = r.pageIndex
    · rw [if_pos h0]
      have hrest_id : rest.map (fun kv =>
          if kv.1 = r.pageIndex then (kv.1, kv.2 ++ [r]) else kv) = rest := by
        have hcg : ∀ e ∈ rest,
            (if e.1 = r.pageIndex then (e.1, e.2 ++ [r]) else e) = id e := by
          intro e he
          rw [if_neg]
          · rfl
          · intro hc
            exact hg0 (List.mem_map.mpr ⟨e, he, by rw [hc, ← h0]⟩)
        rw [List.map_congr_left hcg, List.map_id]
      rw [hrest_id, keyRects_cons, keyRects_cons]
      by_cases hk : kv0.1 = k
      · have hpik : r.pageIndex = k := by rw [← h0, hk]
        have hnil : keyRects rest k = [] := by
          apply keyRects_eq_nil
          intro e he hek
          exact hg0 (List.mem_map.mpr ⟨e, he, by rw [hek, ← hk]⟩)
        rw [if_pos hk, if_pos hk, if_pos hpik, hnil, List.append_nil,
          List.append_nil]
      · have hpik : r.pageIndex ≠ k := by rw [← h0]; exact hk
        rw [if_neg hk, if_neg hk, if_neg hpik]
    · rw [if_neg h0]
      have hany' : ∃ kv ∈ rest, kv.1 = r.pageIndex := by
        obtain ⟨kv, hmem, hkv⟩ := hany
        rcases List.mem_cons.mp hmem with heq | hmem'
        · exact absurd (heq ▸ hkv) h0
        · exact ⟨kv, hmem', hkv⟩
      rw [keyRects_cons, keyRects_cons, ih hg' hany']
      by_cases hk : kv0.1 = k
      · rw [if_pos hk, if_pos hk]
        by_cases hpik : r.pageIndex = k
        · rw [if_pos hpik, if_pos hpik, List.append_assoc]
        · rw [if_neg hpik, if_neg hpik]
      · rw [if_neg hk, if_neg hk]

theorem keyRects_upsert (g : List (ℤ × List RedactionRect)) (hg : KeysNodup g)
    (r : RedactionRect) (k : ℤ) :
    keyRects (upsertRedaction g r) k
      = if r.pageIndex = k then keyRects g k ++ [r] else keyRects g k := by
  unfold upsertRedaction
  by_cases hany : g.any (fun kv => kv.1 == r.pageIndex) = true
  · rw [if_pos hany]
    apply keyRects_map_extend g r k hg
    obtain ⟨kv, hkv, hp⟩ := List.any_eq_true.mp hany
    exact ⟨kv, hkv, by simpa using hp⟩
  · rw [if_neg hany, keyRects_append, keyRects_cons]
    by_cases hpik : r.pageIndex = k
    · rw [if_pos hpik, if_pos hpik]
      rfl
    · rw [if_neg hpik, if_neg hpik]
      have hnil : keyRects ([] : List (ℤ × List RedactionRect)) k = [] := rfl
      rw [hnil, List.append_nil]

theorem keyRects_groupFold (rs : List RedactionRect) :
    ∀ (g : List (ℤ × List RedactionRect)), KeysNodup g → ∀ k : ℤ,
      keyRects (rs.foldl upsertRedaction g) k
        = keyRects g k ++ rs.filter (fun r => r.pageIndex == k) := by
  induction rs with
  | nil =>
    intro g hg k
    simp [List.foldl_nil, List.filter_nil]
  | cons r rest ih =>
    intro g hg k
    rw [List.foldl_cons, ih (upsertRedaction g r) (keysNodup_upsert g r hg) k,
      keyRects_upsert g hg r k]
    by_cases hpk : r.pageIndex = k
    · rw [if_pos hpk, List.filter_cons_of_pos (by simp [hpk]),
        List.append_assoc, List.singleton_append]
    · rw [if_neg hpk, List.filter_cons_of_neg (by simp [hpk])]

theorem keyRects_groupByPage (rs : List RedactionRect) (k : ℤ) :
    keyRects (groupByPage rs) k = rs.filter (fun r => r.pageIndex == k) := by
  have h := keyRects_groupFold rs [] (by simp [KeysNodup]) k
  simpa [groupByPage] using h

theorem applyPage_get? (pages : List PdfPage) (kv : ℤ × List RedactionRect)
    (i : ℕ) :
    (applyPageRedactions pages kv).get? i
      = if kv.1 = (i : ℤ) then
          (pages.get? i).map (fun p => drawRedactions p kv.2)
        else pages.get? i := by
  unfold applyPageRedactions
  by_cases hs : 0 ≤ kv.1
  · rw [if_pos hs]
    cases hp : pages.get? kv.1.toNat with
    | none =>
      show pages.get? i
        = if kv.1 = (i : ℤ) then
            (pages.get? i).map (fun p => drawRedactions p kv.2)
          else pages.get? i
      by_cases hk : kv.1 = (i : ℤ)
      · have hti : kv.1.toNat = i := by omega
        rw [if_pos hk, ← hti, hp]
        rfl
      · rw [if_neg hk]
    | some p =>
      show (pages.set kv.1.toNat (drawRedactions p kv.2)).get? i
        = if kv.1 = (i : ℤ) then
            (pages.get? i).map (fun q => drawRedactions q kv.2)
          else pages.get? i
      by_cases hk : kv.1 = (i : ℤ)
      · have hti : kv.1.toNat = i := by omega
        have hlt : kv.1.toNat < pages.length := (List.get?_eq_some.mp hp).1
        subst hti
        rw [if_pos hk, List.get?_set_eq_of_lt _ hlt, hp]
        rfl
      · have hti : kv.1.toNat ≠ i := by omega
        rw [if_neg hk, List.get?_set_ne _ _ hti]
  · rw [if_neg hs]
    have hk : kv.1 ≠ (i : ℤ) := by omega
    rw [if_neg hk]

theorem foldApply_get? (gs : List (ℤ × List RedactionRect)) :
    ∀ (pages : List PdfPage) (i : ℕ),
      (gs.foldl applyPageRedactions pages).get? i
        = (pages.get? i).map (fun p => drawRedactions p (keyRects gs (i : ℤ))) := by
  induction gs with
  | nil =>
    intro pages i
    rw [List.foldl_nil]
    have hnil : keyRects ([] : List (ℤ × List RedactionRect)) (i : ℤ) = [] := rfl
    rw [hnil]
    cases pages.get? i with
    | none => rfl
    | some p => simp [drawRedactions_nil]
  | cons kv rest ih =>
    intro pages i
    rw [List.foldl_cons, ih (applyPageRedactions pages kv) i,
      applyPage_get? pages kv i, keyRects_cons]
    by_cases hk : kv.1 = (i : ℤ)
    · rw [if_pos hk, if_pos hk]
      cases pages.get? i with
      | none => rfl
      | some p => simp [drawRedactions_append]
    · rw [if_neg hk, if_neg hk]

theorem saveRedactedPdf_get? (pages : List PdfPage) (rs : List RedactionRect)
    (i : ℕ) :
    (saveRedactedPdf pages rs).get? i
      = (pages.get? i).map
          (fun p => drawRedactions p
            (rs.filter (fun r => r.pageIndex == (i : ℤ)))) := by
  unfold saveRedactedPdf
  rw [foldApply_get?, keyRects_groupByPage]

/-- C5: export page isolation.  A page whose index is hit by no redaction
is passed through to the output document unchanged, and an annotated page
keeps its original content, gaining exactly one placed image per redaction
of that page, at the redactions' own document-space rectangles. -/
theorem export_page_isolation (pages : List PdfPage) (rs : List RedactionRect)
    (i : ℕ) (hi : i < pages.length) :
    ((∀ r ∈ rs, r.pageIndex ≠ (i : ℤ)) →
      (saveRedactedPdf pages rs).get? i = pages.get? i)
  ∧ (saveRedactedPdf pages rs).get? i
      = some { content := (pages.get ⟨i, hi⟩).content
               images := (pages.get ⟨i, hi⟩).images
                 ++ (rs.filter (fun r => r.pageIndex == (i : ℤ))).map drawRect } := by
  have hget : pages.get? i = some (pages.get ⟨i, hi⟩) := List.get?_eq_get hi
  constructor
  · intro hnone
    rw [saveRedactedPdf_get?]
    have hfil : rs.filter (fun r => r.pageIndex == (i : ℤ)) = [] := by
      rw [List.filter_eq_nil]
      intro r hr
      simp [hnone r hr]
    rw [hfil, hget]
    simp [drawRedactions_nil]
  · rw [saveRedactedPdf_get?, hget]
    rfl

/-- A three-page document with empty pages (content codes 10, 20, 30). -/
def pages3 : List PdfPage :=
  [{ content := 10, images := [] }, { content := 20, images := [] },
   { content := 30, images := [] }]

/-- A destructive redaction on page index 1 (the second page). -/
def red1 : RedactionRect :=
  { id := 21, pageIndex := 1, x := 5, y := 5, width := 50, height := 20 }

/-- Witness for C5: exporting the three-page document with one destructive
redaction on page 2 leaves pages 1 and 3 identical to the original. -/
theorem export_page_isolation_witness :
    (saveRedactedPdf pages3 [red1]).get? 0 = pages3.get? 0
  ∧ (saveRedactedPdf pages3 [red1]).get? 2 = pages3.get? 2 :=
  ⟨(export_page_isolation pages3 [red1] 0 (by norm_num [pages3])).1 (by decide),
   (export_page_isolation pages3 [red1] 2 (by norm_num [pages3])).1 (by decide)⟩

theorem saveRedactedPdf_invalid_skip (pages : List PdfPage)
    (l1 l2 : List RedactionRect) (r : RedactionRect)
    (hr : r.pageIndex < 0 ∨ (pages.length : ℤ) ≤ r.pageIndex) :
    saveRedactedPdf pages (l1 ++ r :: l2) = saveRedactedPdf pages (l1 ++ l2) := by
  apply List.ext
  intro n
  rw [saveRedactedPdf_get?, saveRedactedPdf_get?]
  by_cases hn : n < pages.length
  · have hrn : ¬(r.pageIndex == (n : ℤ)) = true := by
      rw [beq_iff_eq]
      omega
    have hfe : List.filter (fun x => x.pageIndex == (n : ℤ)) (r :: l2)
        = List.filter (fun x => x.pageIndex == (n : ℤ)) l2 :=
      List.filter_cons_of_neg hrn
    rw [List.filter_append, List.filter_append, hfe]
  · have hnone : pages.get? n = none := List.get?_eq_none.mpr (le_of_not_lt hn)
    rw [hnone]
    rfl

/-- A redaction whose page index 5 lies past the last page of `pages3`. -/
def redBad : RedactionRect :=
  { id := 99, pageIndex := 5, x := 0, y := 0, width := 10, height := 10 }

theorem runGroupsE_eq_none (gs : List (ℤ × List RedactionRect)) :
    ∀ pages : List PdfPage,
      (∃ kv ∈ gs, kv.1 < 0 ∨ (pages.length : ℤ) ≤ kv.1) →
        runGroupsE pages gs = none := by
  induction gs with
  | nil =>
    intro pages h
    simp at h
  | cons kv0 rest ih =>
    intro pages h
    obtain ⟨kv, hmem, hbad⟩ := h
    simp only [runGroupsE]
    by_cases hs : 0 ≤ kv0.1
    · rw [if_pos hs]
      cases hp : pages.get? kv0.1.toNat with
      | none => rfl
      | some p =>
        show runGroupsE (pages.set kv0.1.toNat (drawRedactions p kv0.2)) rest = none
        have hlt : kv0.1.toNat < pages.length := (List.get?_eq_some.mp hp).1
        have hkv : kv ∈ rest := by
          rcases List.mem_cons.mp hmem with heq | hmem'
          · exfalso
            subst heq
            rcases hbad with h1 | h2
            · omega
            · omega
          · exact hmem'
        exact ih _ ⟨kv, hkv, by rw [List.length_set]; exact hbad⟩
    · rw [if_neg hs]

theorem group_has_key (rs : List RedactionRect) (r : RedactionRect)
    (hr : r ∈ rs) : ∃ kv ∈ groupByPage rs, kv.1 = r.pageIndex := by
  by_contra hc
  push_neg at hc
  have hnil := keyRects_eq_nil (groupByPage rs) r.pageIndex hc
  rw [keyRects_groupByPage] at hnil
  have hmem : r ∈ List.filter (fun x => x.pageIndex == r.pageIndex) rs :=
    List.mem_filter.mpr ⟨hr, by simp⟩
  rw [hnil] at hmem
  simp at hmem

/-- Counterexample to C10: on a three-page document, the part_001 export
`savePdfWithRedactions` fails on an annotation with the nonexistent page
index 5 — it has no `pages[pageIndex]` guard, so the out-of-range page
request rejects and no document is returned — rather than silently
skipping it and returning the export with the annotation absent. -/
theorem export_invalid_page_counterexample :
    savePdfWithRedactions pages3 [redBad] = none
  ∧ savePdfWithRedactions pages3 [] = some pages3
  ∧ savePdfWithRedactions pages3 [redBad] ≠ savePdfWithRedactions pages3 [] := by
  refine ⟨rfl, rfl, ?_⟩
  intro h
  exact Option.noConfusion h

/-- C10 (amended): for every annotation whose `pageIndex` names no page of
the loaded document (negative or past the last page), the pdfUtils.ts
export `saveRedactedPdf` does not fail and silently skips that
annotation's page, returning the same complete saved document it would
return with the annotation absent; the part_001 variant
`savePdfWithRedactions`, which lacks the `pages[pageIndex]` guard, instead
fails on such an annotation and returns no output. -/
theorem export_invalid_page_amended (pages : List PdfPage)
    (l1 l2 : List RedactionRect) (r : RedactionRect)
    (hr : r.pageIndex < 0 ∨ (pages.length : ℤ) ≤ r.pageIndex) :
    saveRedactedPdf pages (l1 ++ r :: l2) = saveRedactedPdf pages (l1 ++ l2)
  ∧ savePdfWithRedactions pages (l1 ++ r :: l2) = none := by
  constructor
  · exact saveRedactedPdf_invalid_skip pages l1 l2 r hr
  · obtain ⟨kv, hkv, hfst⟩ :=
      group_has_key (l1 ++ r :: l2) r (by simp)
    exact runGroupsE_eq_none _ pages ⟨kv, hkv, by rw [hfst]; exact hr⟩

/-- Witness for C10 (amended): on the three-page document, an annotation
with page index 5 is skipped by `saveRedactedPdf` (same output as without
it) and makes `savePdfWithRedactions` fail. -/
theorem export_invalid_page_amended_witness :
    saveRedactedPdf pages3 ([red1] ++ redBad :: []) = saveRedactedPdf pages3 ([red1] ++ [])
  ∧ savePdfWithRedactions pages3 ([red1] ++ redBad :: []) = none :=
  export_invalid_page_amended pages3 [red1] [] redBad (by right; norm_num [pages3, redBad])

end PixelGuard
